import Mathlib

/-!
Verification development for the arm5/pyarm5 record-keeping library.

This file gives a shallow embedding, in Lean, of the parts of the library
under study, translated from the Python source:

* `arm5/datamodels/times.py` — the `Seasons` enumeration with its alias
  machinery and declaration-order comparisons, the `YearSeason` ordered
  period model and its `iter_between` interval enumeration;
* `arm5/datamodels/arts.py` — the alias-aware, case-insensitive
  `ArtEnumBase` parsing used by `HermeticTechniques` / `HermeticForms`;
* `pyarm5/bases.py` and `pyarm5/datamodels/arts.py` — the `StrFlag`
  prefix-matching parser used by `HermeticTechnique` / `HermeticForm`;
* `arm5/io/hashio.py` — the hash-validated file-open wrapper, modelled as
  an explicit state machine over a finite file system (path → bytes map),
  parametrised by an abstract digest function standing for the chosen
  hashlib algorithm.

Machine strings are modelled by Lean `String` (the inputs of interest are
ASCII); file contents and digests by `List Nat` (byte lists); fallible
operations return `Except` / `Option`.
-/

/-- The `Seasons` enumeration of `arm5/datamodels/times.py`.  Members in
declaration order: SPRING, SUMMER, AUTUMN, WINTER; `FALL = AUTUMN` is a
Python-side alias (not a distinct member). -/
inductive Seasons
  | SPRING
  | SUMMER
  | AUTUMN
  | WINTER
deriving DecidableEq, Repr, Fintype

/-- Canonical string value of each `Seasons` member (`obj._value_`). -/
def Seasons.value : Seasons → String
  | .SPRING => "spring"
  | .SUMMER => "summer"
  | .AUTUMN => "autumn"
  | .WINTER => "winter"

/-- String-side aliases of each `Seasons` member (`obj._aliases_`):
AUTUMN is declared as `"autumn", ["fall"]`, the others have none. -/
def Seasons.aliasStrings : Seasons → List String
  | .AUTUMN => ["fall"]
  | _ => []

/-- Iteration order of the canonical members (`for member in cls`), which
excludes the Python-side alias name FALL. -/
def seasonsMembers : List Seasons := [.SPRING, .SUMMER, .AUTUMN, .WINTER]

/-- The values of `Seasons.__members__`, which lists every *name* in
declaration order, the alias name FALL included (it maps to AUTUMN). -/
def seasonsMemberNames : List Seasons := [.SPRING, .SUMMER, .AUTUMN, .WINTER, .AUTUMN]

/-- `Seasons._enumeration_order`: the first index of the member in
`list(type(self).__members__.values())` (Python `list.index`). -/
def Seasons.enumerationOrder (s : Seasons) : Nat :=
  seasonsMemberNames.findIdx (fun m => m == s)

/-- `Seasons.__lt__`, comparing `_enumeration_order`. -/
def Seasons.slt (a b : Seasons) : Bool :=
  decide (a.enumerationOrder < b.enumerationOrder)

/-- `Seasons.__le__`, comparing `_enumeration_order`. -/
def Seasons.sle (a b : Seasons) : Bool :=
  decide (a.enumerationOrder ≤ b.enumerationOrder)

/-- `Seasons.__ge__`, comparing `_enumeration_order`. -/
def Seasons.sge (a b : Seasons) : Bool :=
  decide (b.enumerationOrder ≤ a.enumerationOrder)

/-- `Seasons._missing_`: on value-lookup failure for a string, return the
first member whose alias set contains the string (no case folding), else
fail.  `seasonsParse` is the whole of `Seasons(value)` for a string
argument: exact value lookup first, then `_missing_`. -/
def seasonsParse (s : String) : Option Seasons :=
  match seasonsMembers.find? (fun m => m.value == s) with
  | some m => some m
  | none => seasonsMembers.find? (fun m => m.aliasStrings.contains s)

/-- `YearSeason` (a frozen pydantic model): a year (a positive integer in
the source; modelled on `Nat`, all theorems hold for every `Nat`) together
with a season. -/
structure YearSeason where
  year : Nat
  season : Seasons
deriving DecidableEq, Repr

/-- `YearSeason.__lt__`: `year < year or (year == year and season < season)`. -/
def ysLt (a b : YearSeason) : Bool :=
  decide (a.year < b.year) || (decide (a.year = b.year) && Seasons.slt a.season b.season)

/-- `YearSeason.__le__` as generated by `functools.total_ordering` from
`__lt__` and `__eq__` (pydantic field equality): `a < b or a == b`. -/
def ysLe (a b : YearSeason) : Bool := ysLt a b || a == b

/-- `YearSeason.__gt__` as generated by `functools.total_ordering`:
`not (a < b or a == b)`. -/
def ysGt (a b : YearSeason) : Bool := !(ysLt a b || a == b)

/-- `YearSeason.__ge__` as generated by `functools.total_ordering`:
`not (a < b)`. -/
def ysGe (a b : YearSeason) : Bool := !(ysLt a b)

/-- `YearSeason.iter_between(start, end)`, translated loop for loop.  The
generator becomes the finite list of yielded values: an early empty return
when `end < start`, then (1) the seasons of `start.year` from
`start.season` on, (2) all four seasons of every year strictly between,
(3) the seasons of `end.year` up to `end.season`.  `range(a, b)` becomes
`List.range' a (b - a)`. -/
def iter_between (start stop : YearSeason) : List YearSeason :=
  if ysLt stop start then []
  else
    (seasonsMembers.filter (fun s => Seasons.sge s start.season)).map
        (fun s => YearSeason.mk start.year s)
      ++ (List.range' (start.year + 1) (stop.year - (start.year + 1))).flatMap
        (fun y => seasonsMembers.map (fun s => YearSeason.mk y s))
      ++ (seasonsMembers.filter (fun s => Seasons.sle s stop.season)).map
        (fun s => YearSeason.mk stop.year s)

/-- `YearSeason.start_of_year`. -/
def startOfYear (y : Nat) : YearSeason := ⟨y, .SPRING⟩

/-- `YearSeason.end_of_year`. -/
def endOfYear (y : Nat) : YearSeason := ⟨y, .WINTER⟩

theorem enumerationOrder_inj : ∀ s t : Seasons,
    Seasons.enumerationOrder s = Seasons.enumerationOrder t → s = t := by decide

theorem ysLt_iff (a b : YearSeason) :
    ysLt a b = true ↔
      a.year < b.year ∨ (a.year = b.year ∧
        Seasons.enumerationOrder a.season < Seasons.enumerationOrder b.season) := by
  simp [ysLt, Seasons.slt]

theorem ysLt_false_iff (a b : YearSeason) :
    ysLt a b = false ↔
      ¬(a.year < b.year ∨ (a.year = b.year ∧
        Seasons.enumerationOrder a.season < Seasons.enumerationOrder b.season)) := by
  rw [Bool.eq_false_iff, Ne, ysLt_iff]

theorem ysEq_iff (a b : YearSeason) : a = b ↔ a.year = b.year ∧ a.season = b.season := by
  cases a; cases b; simp

theorem ys_trichotomy (a b : YearSeason) :
    (ysLt a b = true ∧ a ≠ b ∧ ysLt b a = false) ∨
    (ysLt a b = false ∧ a = b ∧ ysLt b a = false) ∨
    (ysLt a b = false ∧ a ≠ b ∧ ysLt b a = true) := by
  rcases Nat.lt_trichotomy a.year b.year with h | h | h
  · refine Or.inl ⟨(ysLt_iff a b).mpr (Or.inl h), ?_, (ysLt_false_iff b a).mpr ?_⟩
    · intro he; rw [he] at h; omega
    · rintro (g | ⟨g, -⟩) <;> omega
  · rcases Nat.lt_trichotomy (Seasons.enumerationOrder a.season)
        (Seasons.enumerationOrder b.season) with g | g | g
    · refine Or.inl ⟨(ysLt_iff a b).mpr (Or.inr ⟨h, g⟩), ?_, (ysLt_false_iff b a).mpr ?_⟩
      · intro he; rw [he] at g; omega
      · rintro (k | ⟨-, k⟩) <;> omega
    · refine Or.inr (Or.inl ⟨(ysLt_false_iff a b).mpr ?_, ?_, (ysLt_false_iff b a).mpr ?_⟩)
      · rintro (k | ⟨-, k⟩) <;> omega
      · exact (ysEq_iff a b).mpr ⟨h, enumerationOrder_inj _ _ g⟩
      · rintro (k | ⟨-, k⟩) <;> omega
    · refine Or.inr (Or.inr ⟨(ysLt_false_iff a b).mpr ?_, ?_, (ysLt_iff b a).mpr (Or.inr ⟨h.symm, g⟩)⟩)
      · rintro (k | ⟨-, k⟩) <;> omega
      · intro he; rw [he] at g; omega
  · refine Or.inr (Or.inr ⟨(ysLt_false_iff a b).mpr ?_, ?_, (ysLt_iff b a).mpr (Or.inl h)⟩)
    · rintro (g | ⟨g, -⟩) <;> omega
    · intro he; rw [he] at h; omega

theorem ysGt_eq_ysLt_swap (a b : YearSeason) : ysGt a b = ysLt b a := by
  rcases ys_trichotomy a b with ⟨h1, h2, h3⟩ | ⟨h1, h2, h3⟩ | ⟨h1, h2, h3⟩
  · simp [ysGt, h1, h3]
  · subst h2; simp [ysGt, h1, h3]
  · simp [ysGt, h1, h3, beq_iff_eq, h2]

theorem ysGe_eq_ysLe_swap (a b : YearSeason) : ysGe a b = ysLe b a := by
  rcases ys_trichotomy a b with ⟨h1, h2, h3⟩ | ⟨h1, h2, h3⟩ | ⟨h1, h2, h3⟩
  · simp [ysGe, ysLe, h1, h3, beq_iff_eq]
    intro he; exact h2 he.symm
  · subst h2; simp [ysGe, ysLe, h1, h3]
  · simp [ysGe, ysLe, h1, h3]

theorem ysLe_iff (a b : YearSeason) :
    ysLe a b = true ↔
      a.year < b.year ∨ (a.year = b.year ∧
        Seasons.enumerationOrder a.season ≤ Seasons.enumerationOrder b.season) := by
  constructor
  · intro h
    rcases Bool.or_eq_true_iff.mp h with h | h
    · rcases (ysLt_iff a b).mp h with g | ⟨g, g'⟩
      · exact Or.inl g
      · exact Or.inr ⟨g, Nat.le_of_lt g'⟩
    · have : a = b := beq_iff_eq.mp h
      subst this; exact Or.inr ⟨rfl, Nat.le_refl _⟩
  · rintro (h | ⟨h, h'⟩)
    · exact Bool.or_eq_true_iff.mpr (Or.inl ((ysLt_iff a b).mpr (Or.inl h)))
    · rcases Nat.lt_or_eq_of_le h' with g | g
      · exact Bool.or_eq_true_iff.mpr (Or.inl ((ysLt_iff a b).mpr (Or.inr ⟨h, g⟩)))
      · have : a = b := (ysEq_iff a b).mpr ⟨h, enumerationOrder_inj _ _ g⟩
        exact Bool.or_eq_true_iff.mpr (Or.inr (beq_iff_eq.mpr this))

theorem ysLe_trans : ∀ a b c : YearSeason, ysLe a b → ysLe b c → ysLe a c := by
  intro a b c hab hbc
  have h1 := (ysLe_iff a b).mp hab
  have h2 := (ysLe_iff b c).mp hbc
  refine (ysLe_iff a c).mpr ?_
  rcases h1 with h | ⟨h, h'⟩ <;> rcases h2 with g | ⟨g, g'⟩
  · exact Or.inl (Nat.lt_trans h g)
  · exact Or.inl (by omega)
  · exact Or.inl (by omega)
  · exact Or.inr ⟨h.trans g, Nat.le_trans h' g'⟩

theorem ysLe_total : ∀ a b : YearSeason, ysLe a b || ysLe b a := by
  intro a b
  rcases ys_trichotomy a b with ⟨h1, -, -⟩ | ⟨-, h2, -⟩ | ⟨-, -, h3⟩
  · simp [ysLe, h1]
  · subst h2; simp [ysLe]
  · simp [ysLe, h3]

/-- C9: for any two `YearSeason` values exactly one of `<`, `==`, `>`
holds; the derived operators `>` and `>=` agree with the converses of `<`
and `<=`; `<` is the lexicographic order on (year, season declaration
rank); equality holds iff both fields match; and sorting any finite list
of `YearSeason` values with the derived `<=` produces an ascending
(year, season) reordering of it. -/
theorem c9_ordering_total :
    (∀ a b : YearSeason,
      ((ysLt a b = true ∧ a ≠ b ∧ ysLt b a = false) ∨
       (ysLt a b = false ∧ a = b ∧ ysLt b a = false) ∨
       (ysLt a b = false ∧ a ≠ b ∧ ysLt b a = true)) ∧
      ysGt a b = ysLt b a ∧ ysGe a b = ysLe b a ∧
      (ysLt a b = true ↔
        a.year < b.year ∨ (a.year = b.year ∧
          Seasons.enumerationOrder a.season < Seasons.enumerationOrder b.season)) ∧
      (a = b ↔ a.year = b.year ∧ a.season = b.season)) ∧
    (∀ l : List YearSeason,
      (l.mergeSort ysLe).Pairwise (fun x y => ysLe x y = true) ∧
      List.Perm (l.mergeSort ysLe) l) := by
  constructor
  · intro a b
    exact ⟨ys_trichotomy a b, ysGt_eq_ysLt_swap a b, ysGe_eq_ysLe_swap a b,
      ysLt_iff a b, ysEq_iff a b⟩
  · intro l
    constructor
    · exact List.sorted_mergeSort ysLe_trans ysLe_total l
    · exact List.mergeSort_perm l ysLe

/-- Python `str.lower()`, character-wise lower-casing (all strings handled
by the library are ASCII, where `Char.toLower` agrees with Python). -/
def pyLower (s : String) : String := String.mk (s.data.map Char.toLower)

/-- The `HermeticTechniques` enumeration of `arm5/datamodels/arts.py`
(an `ArtEnumBase`). -/
inductive HermeticTechniques
  | CREO
  | INTELLEGO
  | MUTO
  | PERDO
  | REGO
deriving DecidableEq, Repr, Fintype

/-- Stored `_value_` of each `HermeticTechniques` member (the declared
value, lower-cased at class-creation time by `ArtEnumBase.__new__`). -/
def HermeticTechniques.value : HermeticTechniques → String
  | .CREO => "creo"
  | .INTELLEGO => "intellego"
  | .MUTO => "muto"
  | .PERDO => "perdo"
  | .REGO => "rego"

/-- Stored `_aliases_` of each `HermeticTechniques` member (declared
aliases, lower-cased at class-creation time). -/
def HermeticTechniques.aliasStrings : HermeticTechniques → List String
  | .CREO => ["cr"]
  | .INTELLEGO => ["in"]
  | .MUTO => ["mu"]
  | .PERDO => ["pe"]
  | .REGO => ["re"]

/-- Members of `HermeticTechniques` in declaration order. -/
def htqMembers : List HermeticTechniques := [.CREO, .INTELLEGO, .MUTO, .PERDO, .REGO]

/-- The `HermeticForms` enumeration of `arm5/datamodels/arts.py`
(an `ArtEnumBase`). -/
inductive HermeticForms
  | ANIMAL
  | AQUAM
  | AURAM
  | CORPUS
  | HERBAM
  | IGNEM
  | IMAGINEM
  | MENTEM
  | TERRAM
  | VIM
deriving DecidableEq, Repr, Fintype

/-- Stored `_value_` of each `HermeticForms` member. -/
def HermeticForms.value : HermeticForms → String
  | .ANIMAL => "animal"
  | .AQUAM => "aquam"
  | .AURAM => "auram"
  | .CORPUS => "corpus"
  | .HERBAM => "herbam"
  | .IGNEM => "ignem"
  | .IMAGINEM => "imaginem"
  | .MENTEM => "mentem"
  | .TERRAM => "terram"
  | .VIM => "vim"

/-- Stored `_aliases_` of each `HermeticForms` member. -/
def HermeticForms.aliasStrings : HermeticForms → List String
  | .ANIMAL => ["an"]
  | .AQUAM => ["aq"]
  | .AURAM => ["au"]
  | .CORPUS => ["co"]
  | .HERBAM => ["he"]
  | .IGNEM => ["ig"]
  | .IMAGINEM => ["im"]
  | .MENTEM => ["me"]
  | .TERRAM => ["te"]
  | .VIM => ["vi"]

/-- Members of `HermeticForms` in declaration order. -/
def hfqMembers : List HermeticForms :=
  [.ANIMAL, .AQUAM, .AURAM, .CORPUS, .HERBAM, .IGNEM, .IMAGINEM, .MENTEM, .TERRAM, .VIM]

/-- Calling an `ArtEnumBase` enumeration on a string: Python's enum call
first looks the string up among member values exactly, then falls back to
`ArtEnumBase._missing_`, which lower-cases the input and scans members in
declaration order, returning the first whose `_value_` equals or whose
`_aliases_` contains the lowered string; `none` models the `ValueError`
raised when `_missing_` finds nothing. -/
def artParse {α : Type} (members : List α) (value : α → String)
    (aliasStrings : α → List String) (s : String) : Option α :=
  match members.find? (fun m => value m == s) with
  | some m => some m
  | none =>
      members.find? (fun m => value m == pyLower s || (aliasStrings m).contains (pyLower s))

theorem artParse_eq_of {α : Type} (members : List α) (value : α → String)
    (aliasStrings : α → List String) (v : α) (s t : String)
    (ht : pyLower s = t)
    (hlow : ∀ m ∈ members, pyLower (value m) = value m)
    (hexact : ∀ m ∈ members, value m = t → m = v)
    (hmiss : members.find? (fun m => value m == t || (aliasStrings m).contains t) = some v) :
    artParse members value aliasStrings s = some v := by
  unfold artParse
  cases hfind : members.find? (fun m => value m == s) with
  | some m =>
      have hmem := List.mem_of_find?_eq_some hfind
      have hvs : value m = s := by simpa using List.find?_some hfind
      have hvt : value m = t := by
        rw [← ht, ← hvs]; exact (hlow m hmem).symm
      rw [hexact m hmem hvt]
  | none =>
      rw [ht]; exact hmiss

/-- C4 counterexample: "SPRING" is a casing of the canonical name
"spring" of `Seasons.SPRING`, yet `Seasons("SPRING")` fails (the `Seasons`
value lookup and `Seasons._missing_` are both case-sensitive), while the
canonical lowercase form resolves — so parsing a casing of a canonical
name does not always resolve to the same variant. -/
theorem c4_counterexample :
    pyLower "SPRING" = Seasons.value .SPRING ∧
    seasonsParse "SPRING" = none ∧
    seasonsParse (Seasons.value .SPRING) = some .SPRING := by decide

/-- C4 (amended): for the `ArtEnumBase` enumerations `HermeticTechniques`
and `HermeticForms`, every casing of a variant's canonical value or of one
of its declared aliases resolves to that variant (hence to the same
variant as the canonical lowercase form); for `Seasons`, parsing is
case-sensitive: each canonical value and the declared alias "fall" resolve
exactly as written, and nothing else resolves. -/
theorem c4_casing_resolution :
    (∀ (v : HermeticTechniques) (s : String),
      pyLower s = v.value ∨ pyLower s ∈ v.aliasStrings →
      artParse htqMembers HermeticTechniques.value HermeticTechniques.aliasStrings s
        = some v) ∧
    (∀ (v : HermeticForms) (s : String),
      pyLower s = v.value ∨ pyLower s ∈ v.aliasStrings →
      artParse hfqMembers HermeticForms.value HermeticForms.aliasStrings s = some v) ∧
    (∀ v : Seasons, seasonsParse v.value = some v) ∧
    seasonsParse "fall" = some .AUTUMN ∧
    (∀ (s : String) (v : Seasons), seasonsParse s = some v →
      s = v.value ∨ s ∈ v.aliasStrings) := by
  refine ⟨?_, ?_, by decide, by decide, ?_⟩
  · intro v s h
    rcases h with h | h
    · cases v <;> exact artParse_eq_of _ _ _ _ _ _ h (by decide) (by decide) (by decide)
    · cases v <;>
        simp only [HermeticTechniques.aliasStrings, List.mem_cons, List.not_mem_nil,
          or_false] at h <;>
        exact artParse_eq_of _ _ _ _ _ _ h (by decide) (by decide) (by decide)
  · intro v s h
    rcases h with h | h
    · cases v <;> exact artParse_eq_of _ _ _ _ _ _ h (by decide) (by decide) (by decide)
    · cases v <;>
        simp only [HermeticForms.aliasStrings, List.mem_cons, List.not_mem_nil,
          or_false] at h <;>
        exact artParse_eq_of _ _ _ _ _ _ h (by decide) (by decide) (by decide)
  · intro s v h
    unfold seasonsParse at h
    cases hfind : seasonsMembers.find? (fun m => m.value == s) with
    | some m =>
        rw [hfind] at h
        have hvs : m.value = s := by simpa using List.find?_some hfind
        injection h with h2
        subst h2
        exact Or.inl hvs.symm
    | none =>
        rw [hfind] at h
        have hc := List.find?_some h
        exact Or.inr (by simpa using hc)

/-- Witness for C4 (amended): a mixed casing of a technique value, and an
upper casing of a form alias, resolve to the right variants. -/
theorem c4_casing_resolution_witness :
    artParse htqMembers HermeticTechniques.value HermeticTechniques.aliasStrings "CrEo"
      = some .CREO ∧
    artParse hfqMembers HermeticForms.value HermeticForms.aliasStrings "AQ"
      = some .AQUAM :=
  ⟨c4_casing_resolution.1 .CREO "CrEo" (Or.inl (by decide)),
    c4_casing_resolution.2.1 .AQUAM "AQ" (Or.inr (by decide))⟩

/-- The `HermeticTechnique` combinable flag of `pyarm5/datamodels/arts.py`
(a `StrFlag`; the `enum.auto()` values are irrelevant to parsing, which
uses member names). -/
inductive HermeticTechnique
  | CREO
  | INTELLEGO
  | MUTO
  | PERDO
  | REGO
deriving DecidableEq, Repr, Fintype

/-- Python `member.name` of each `HermeticTechnique` member. -/
def HermeticTechnique.pname : HermeticTechnique → String
  | .CREO => "CREO"
  | .INTELLEGO => "INTELLEGO"
  | .MUTO => "MUTO"
  | .PERDO => "PERDO"
  | .REGO => "REGO"

/-- Canonical (single-bit) members of `HermeticTechnique` in declaration
order, as iterated by `for member in cls`. -/
def htMembers : List HermeticTechnique := [.CREO, .INTELLEGO, .MUTO, .PERDO, .REGO]

/-- The `HermeticForm` combinable flag of `pyarm5/datamodels/arts.py`. -/
inductive HermeticForm
  | ANIMAL
  | AQUAM
  | AURAM
  | CORPUS
  | HERBAM
  | IGNEM
  | IMAGINEM
  | MENTEM
  | TERRAM
  | VIM
deriving DecidableEq, Repr, Fintype

/-- Python `member.name` of each `HermeticForm` member. -/
def HermeticForm.pname : HermeticForm → String
  | .ANIMAL => "ANIMAL"
  | .AQUAM => "AQUAM"
  | .AURAM => "AURAM"
  | .CORPUS => "CORPUS"
  | .HERBAM => "HERBAM"
  | .IGNEM => "IGNEM"
  | .IMAGINEM => "IMAGINEM"
  | .MENTEM => "MENTEM"
  | .TERRAM => "TERRAM"
  | .VIM => "VIM"

/-- Canonical members of `HermeticForm` in declaration order. -/
def hfMembers : List HermeticForm :=
  [.ANIMAL, .AQUAM, .AURAM, .CORPUS, .HERBAM, .IGNEM, .IMAGINEM, .MENTEM, .TERRAM, .VIM]

/-- The two error shapes raised by `StrFlag._missing_`: the invalid-value
`ValueError` (listing all members) and the ambiguous-value `ValueError`
(listing the matching members). -/
inductive FlagError
  | invalidValue (valid : List String)
  | ambiguousValue (others : List String)
deriving DecidableEq, Repr

/-- `member.name.lower().startswith(value.lower())`: the lowered input is
a character-wise prefix of the lowered member name. -/
def prefMatch {α : Type} (pname : α → String) (s : String) (m : α) : Bool :=
  (pyLower s).data.isPrefixOf (pyLower (pname m)).data

/-- `StrFlag._missing_` for a string input: lower-case the value, collect
the members whose lowered name starts with it, then return the unique
match, or signal the invalid-value error (no match) or the
ambiguous-value error (several matches).  This is the whole of calling a
`StrFlag` class on a string, since the value table only holds integers. -/
def strFlagMissing {α : Type} (members : List α) (pname : α → String) (s : String) :
    Except FlagError α :=
  match members.filter (prefMatch pname s) with
  | [] => .error (.invalidValue (members.map pname))
  | [m] => .ok m
  | ms => .error (.ambiguousValue (ms.map pname))

theorem filter_eq_single_of_unique {α : Type} (l : List α) (p : α → Bool) (m : α)
    (hnd : l.Nodup) (hm : m ∈ l) (hpm : p m = true)
    (huniq : ∀ x ∈ l, p x = true → x = m) : l.filter p = [m] := by
  induction l with
  | nil => cases hm
  | cons a t ih =>
      have hnd' := List.nodup_cons.mp hnd
      rcases List.mem_cons.mp hm with h | h
      · subst h
        rw [List.filter_cons_of_pos hpm]
        have : t.filter p = [] := by
          rw [List.filter_eq_nil_iff]
          intro x hx hpx
          have hxa := huniq x (List.mem_cons_of_mem _ hx) hpx
          subst hxa
          exact hnd'.1 hx
        rw [this]
      · have hpa : p a = false := by
          cases hap : p a with
          | false => rfl
          | true =>
              have := huniq a (List.mem_cons_self a t) hap
              subst this
              exact absurd h hnd'.1
        rw [List.filter_cons_of_neg (by simp [hpa])]
        exact ih hnd'.2 h (fun x hx hpx => huniq x (List.mem_cons_of_mem _ hx) hpx)

theorem strFlagMissing_ok {α : Type} (members : List α) (pname : α → String)
    (s : String) (m : α) (hnd : members.Nodup) (hm : m ∈ members)
    (hpm : prefMatch pname s m = true)
    (huniq : ∀ x ∈ members, prefMatch pname s x = true → x = m) :
    strFlagMissing members pname s = .ok m := by
  unfold strFlagMissing
  rw [filter_eq_single_of_unique members _ m hnd hm hpm huniq]

theorem strFlagMissing_ambiguous {α : Type} (members : List α) (pname : α → String)
    (s : String)
    (h2 : 2 ≤ (members.filter (prefMatch pname s)).length) :
    strFlagMissing members pname s =
      .error (.ambiguousValue ((members.filter (prefMatch pname s)).map pname)) := by
  unfold strFlagMissing
  cases hfil : members.filter (prefMatch pname s) with
  | nil => rw [hfil] at h2; simp at h2
  | cons a t =>
      cases t with
      | nil => rw [hfil] at h2; simp at h2
      | cons b t' => rfl

theorem strFlagMissing_invalid {α : Type} (members : List α) (pname : α → String)
    (s : String) (h0 : ∀ x ∈ members, prefMatch pname s x = false) :
    strFlagMissing members pname s = .error (.invalidValue (members.map pname)) := by
  unfold strFlagMissing
  have : members.filter (prefMatch pname s) = [] := by
    rw [List.filter_eq_nil_iff]
    intro x hx
    simp [h0 x hx]
  rw [this]

/-- C7: for the combinable flags `HermeticTechnique` and `HermeticForm`, a
string that is a case-insensitive prefix of exactly one member's canonical
name parses to that member; a string that prefixes two or more names
raises the ambiguous-value error listing the matching members; a string
that prefixes none raises the invalid-value error listing all members. -/
theorem c7_prefix_resolution (s : String) :
    ((∀ m : HermeticTechnique, m ∈ htMembers →
        prefMatch HermeticTechnique.pname s m = true →
        (∀ x ∈ htMembers, prefMatch HermeticTechnique.pname s x = true → x = m) →
        strFlagMissing htMembers HermeticTechnique.pname s = .ok m) ∧
      (2 ≤ (htMembers.filter (prefMatch HermeticTechnique.pname s)).length →
        strFlagMissing htMembers HermeticTechnique.pname s =
          .error (.ambiguousValue
            ((htMembers.filter (prefMatch HermeticTechnique.pname s)).map
              HermeticTechnique.pname))) ∧
      ((∀ x ∈ htMembers, prefMatch HermeticTechnique.pname s x = false) →
        strFlagMissing htMembers HermeticTechnique.pname s =
          .error (.invalidValue (htMembers.map HermeticTechnique.pname)))) ∧
    ((∀ m : HermeticForm, m ∈ hfMembers →
        prefMatch HermeticForm.pname s m = true →
        (∀ x ∈ hfMembers, prefMatch HermeticForm.pname s x = true → x = m) →
        strFlagMissing hfMembers HermeticForm.pname s = .ok m) ∧
      (2 ≤ (hfMembers.filter (prefMatch HermeticForm.pname s)).length →
        strFlagMissing hfMembers HermeticForm.pname s =
          .error (.ambiguousValue
            ((hfMembers.filter (prefMatch HermeticForm.pname s)).map
              HermeticForm.pname))) ∧
      ((∀ x ∈ hfMembers, prefMatch HermeticForm.pname s x = false) →
        strFlagMissing hfMembers HermeticForm.pname s =
          .error (.invalidValue (hfMembers.map HermeticForm.pname)))) :=
  ⟨⟨fun m hm hpm huniq => strFlagMissing_ok _ _ _ m (by decide) hm hpm huniq,
    fun h2 => strFlagMissing_ambiguous _ _ _ h2,
    fun h0 => strFlagMissing_invalid _ _ _ h0⟩,
   ⟨fun m hm hpm huniq => strFlagMissing_ok _ _ _ m (by decide) hm hpm huniq,
    fun h2 => strFlagMissing_ambiguous _ _ _ h2,
    fun h0 => strFlagMissing_invalid _ _ _ h0⟩⟩

/-- Witness for C7: "c" uniquely prefixes CREO among techniques; "a"
prefixes three forms and is ambiguous; "zz" prefixes no technique and is
invalid. -/
theorem c7_prefix_resolution_witness :
    strFlagMissing htMembers HermeticTechnique.pname "c" = .ok .CREO ∧
    strFlagMissing hfMembers HermeticForm.pname "a" =
      .error (.ambiguousValue ["ANIMAL", "AQUAM", "AURAM"]) ∧
    strFlagMissing htMembers HermeticTechnique.pname "zz" =
      .error (.invalidValue ["CREO", "INTELLEGO", "MUTO", "PERDO", "REGO"]) :=
  ⟨(c7_prefix_resolution "c").1.1 .CREO (by decide) (by decide) (by decide),
   ((c7_prefix_resolution "a").2.2.1 (by decide)).trans (by rfl),
   ((c7_prefix_resolution "zz").1.2.2 (by decide)).trans (by rfl)⟩

/-- C10: constructing any combinable flag with at least two members from
the empty string signals the ambiguous-value error listing every member —
the empty string is a prefix of every name, so the result is never a
member and never the invalid-value error. -/
theorem c10_empty_string_ambiguous {α : Type} (members : List α)
    (pname : α → String) (h2 : 2 ≤ members.length) :
    strFlagMissing members pname "" = .error (.ambiguousValue (members.map pname)) := by
  have hall : members.filter (prefMatch pname "") = members := by
    rw [List.filter_eq_self]
    intro x hx
    unfold prefMatch
    have h0 : (pyLower "").data = [] := by decide
    rw [h0]
    exact List.isPrefixOf_nil_left
  have := strFlagMissing_ambiguous members pname ""
  rw [hall] at this
  exact this h2

/-- Witness for C10, at the two flag enumerations of the library. -/
theorem c10_empty_string_ambiguous_witness :
    strFlagMissing htMembers HermeticTechnique.pname "" =
      .error (.ambiguousValue (htMembers.map HermeticTechnique.pname)) ∧
    strFlagMissing hfMembers HermeticForm.pname "" =
      .error (.ambiguousValue (hfMembers.map HermeticForm.pname)) :=
  ⟨c10_empty_string_ambiguous htMembers _ (by decide),
   c10_empty_string_ambiguous hfMembers _ (by decide)⟩

/-- Index of the last "." in a character list (Python `str.rfind`),
`none` when absent. -/
def lastDotIdx (cs : List Char) : Option Nat :=
  ((List.range cs.length).filter (fun i => cs.getD i ' ' == '.')).getLast?

/-- `pathlib.PurePath.suffix` for a bare file name (the paths handled by
the wrapper only differ in their final component): the part of the name
from the last dot on, when that dot is neither leading nor trailing,
else the empty string. -/
def pySfx (name : String) : String :=
  let cs := name.data
  match lastDotIdx cs with
  | some i => if 0 < i ∧ i < cs.length - 1 then String.mk (cs.drop i) else ""
  | none => ""

/-- `pathlib.PurePath.with_suffix` for a bare file name: drop the old
suffix if any, then append the new one (validity checks on the new suffix
elided — the wrapper always passes a suffix starting with "."). -/
def pyWithSfx (name sfx : String) : String :=
  let old := pySfx name
  if old = "" then name ++ sfx
  else String.mk (name.data.take (name.data.length - old.data.length)) ++ sfx

/-- The digest sibling path computed by `hash_open` (hashio.py lines
111-112): `hash_suffix` is `"." + path.suffix + "." + hash_name` when the
path has a suffix (note `path.suffix` itself starts with a dot), else
`"." + hash_name`; the sibling is `path.with_suffix(hash_suffix)`. -/
def hashPathOf (file hashName : String) : String :=
  let sfx := pySfx file
  let hSfx := if sfx ≠ "" then "." ++ sfx ++ "." ++ hashName else "." ++ hashName
  pyWithSfx file hSfx

/-- A local file system: an association list from path strings to byte
contents. -/
abbrev FileSys := List (String × List Nat)

/-- Contents of a path, `none` when the file does not exist. -/
def fsGet (fs : FileSys) (p : String) : Option (List Nat) :=
  (fs.find? (fun e => e.1 == p)).map (fun e => e.2)

/-- `Path.is_file`. -/
def fsIsFile (fs : FileSys) (p : String) : Bool := (fsGet fs p).isSome

/-- `Path.write_bytes` (create or overwrite). -/
def fsWrite (fs : FileSys) (p : String) (b : List Nat) : FileSys :=
  (fs.filter (fun e => !(e.1 == p))) ++ [(p, b)]

/-- `Path.unlink`. -/
def fsUnlink (fs : FileSys) (p : String) : FileSys :=
  fs.filter (fun e => !(e.1 == p))

theorem fsGet_write_self (fs : FileSys) (p : String) (b : List Nat) :
    fsGet (fsWrite fs p b) p = some b := by
  unfold fsGet fsWrite
  rw [List.find?_append]
  have h1 : (fs.filter (fun e => !(e.1 == p))).find? (fun e => e.1 == p) = none := by
    rw [List.find?_eq_none]
    intro x hx
    have hx' := List.of_mem_filter hx
    simp only [Bool.not_eq_true'] at hx'
    simp [hx']
  rw [h1, Option.none_or]
  simp [List.find?]

theorem fsGet_write_ne (fs : FileSys) (p : String) (b : List Nat) (q : String)
    (h : q ≠ p) : fsGet (fsWrite fs p b) q = fsGet fs q := by
  unfold fsGet fsWrite
  rw [List.find?_append]
  have h2 : List.find? (fun e => e.1 == q) [(p, b)] = none := by
    have hpq : (p == q) = false := by simp [Ne.symm h]
    simp [List.find?, hpq]
  have h3 : (fs.filter (fun e => !(e.1 == p))).find? (fun e => e.1 == q)
      = fs.find? (fun e => e.1 == q) := by
    induction fs with
    | nil => rfl
    | cons e t ih =>
        by_cases he : e.1 = p
        · have hq' : ¬((fun e => e.1 == q) e) := by simp [he, Ne.symm h]
          rw [List.filter_cons_of_neg (by simp [he]), ih,
            List.find?_cons_of_neg t hq']
        · by_cases hq : e.1 = q
          · rw [List.filter_cons_of_pos (by simp [he]),
              List.find?_cons_of_pos _ (by simp [hq]),
              List.find?_cons_of_pos t (by simp [hq])]
          · rw [List.filter_cons_of_pos (by simp [he]),
              List.find?_cons_of_neg _ (by simp [hq]), ih,
              List.find?_cons_of_neg t (by simp [hq])]
  rw [h2, h3, Option.or_none]

theorem hashPathOf_eq_of_empty (f hn : String) (ho : pySfx f = "") :
    hashPathOf f hn = f ++ ("." ++ hn) := by
  simp [hashPathOf, pyWithSfx, ho]

theorem hashPathOf_eq_of_sfx (f hn : String) (ho : pySfx f ≠ "") :
    hashPathOf f hn =
      String.mk (f.data.take (f.data.length - (pySfx f).data.length)) ++
        ("." ++ pySfx f ++ "." ++ hn) := by
  simp [hashPathOf, pyWithSfx, ho]

theorem hashPathOf_ne (f hn : String) : hashPathOf f hn ≠ f := by
  intro hEq
  by_cases ho : pySfx f = ""
  · rw [hashPathOf_eq_of_empty f hn ho] at hEq
    have hlen := congrArg String.length hEq
    rw [String.length_append, String.length_append] at hlen
    have h4 : ("." : String).length = 1 := rfl
    rw [h4] at hlen
    omega
  · rw [hashPathOf_eq_of_sfx f hn ho] at hEq
    have hlen := congrArg String.length hEq
    have hk : (pySfx f).data ≠ [] := fun hnil => ho (by
      have hmk := congrArg String.mk hnil
      simpa using hmk)
    have hkpos : 0 < (pySfx f).data.length := List.length_pos.mpr hk
    rw [String.length_append, String.length_append, String.length_append,
      String.length_append] at hlen
    have h1 : (String.mk (f.data.take (f.data.length - (pySfx f).data.length))).length
        = min (f.data.length - (pySfx f).data.length) f.data.length := by
      rw [String.length_mk, List.length_take]
    have h2 : (pySfx f).length = (pySfx f).data.length := rfl
    have h3 : f.length = f.data.length := rfl
    rw [h1, h2, h3] at hlen
    have h4 : ("." : String).length = 1 := rfl
    rw [h4] at hlen
    omega

/-- The `on_error` policy of `wrap_open`. -/
inductive OnError
  | raise
  | warn
  | ignore
deriving DecidableEq, Repr

/-- Observable side effects of a `hash_open` call, in program order:
the digest comparison of the validation step, the `warnings.warn` call,
the `hash_path.unlink()` call, and the `builtins.open(*args)` call that
produces the caller's handle (the read-only open hidden inside
`path_digest` is modelled as a pure read and has no event). -/
inductive HashEvent
  | validateCheck
  | warnEmitted
  | unlinkHash
  | openFile
deriving DecidableEq, Repr

/-- The `_HashFileWrapper` returned by `hash_open`: `hashTask` is
`some (path, hash_path)` when both are set so that `__exit__` re-hashes,
and `none` for the plain wrapper `_HashFileWrapper(file)`. -/
structure HashWrapper where
  hashTask : Option (String × String)
deriving DecidableEq, Repr

/-- Result of a `hash_open` call: the events that executed, the file
system after them, and either the wrapper or the raised exception's
message. -/
structure HashOpenResult where
  events : List HashEvent
  fs : FileSys
  result : Except String HashWrapper
deriving Repr

/-- Boolean success test on `Except`. -/
def isOkB {ε α : Type} : Except ε α → Bool
  | .ok _ => true
  | .error _ => false

/-- `path_digest(path, digest)`: open the path read-only and hash its full
contents; `digest` is the abstract digest function of the chosen
algorithm.  A missing file is the `FileNotFoundError` of the inner open. -/
def path_digest (digest : List Nat → List Nat) (fs : FileSys) (p : String) :
    Except String (List Nat) :=
  match fsGet fs p with
  | none => .error "FileNotFoundError"
  | some content => .ok (digest content)

/-- `validate_path(path, digest, expected, on_error=...)`: recompute the
digest and compare; on mismatch raise `OSError` under "raise", warn and
continue under "warn" (the `ok` payload records whether a warning was
emitted); the "ignore" arm is Python's `typing.assert_never`, unreachable
from `hash_open`. -/
def validate_path (digest : List Nat → List Nat) (fs : FileSys) (path : String)
    (expected : List Nat) (onError : OnError) : Except String Bool :=
  match path_digest digest fs path with
  | .error e => .error e
  | .ok actual =>
      if expected ≠ actual then
        match onError with
        | .raise => .error (path ++ " has been modified since it was last generated")
        | .warn => .ok true
        | .ignore => .error "assert_never"
      else .ok false

/-- Python `c in s` for a character and a string: membership in the
character sequence. -/
def pyCharIn (c : Char) (s : String) : Bool := s.data.contains c

/-- `any(m in mode for m in "wa")`: the mode string mentions write or
append. -/
def modeHasWA (mode : String) : Bool := pyCharIn 'w' mode || pyCharIn 'a' mode

/-- Effect on the file system of `builtins.open(file, mode)`: "w"
truncates or creates, "a" creates when absent, otherwise the file must
exist to be read. -/
def openFS (fs : FileSys) (file mode : String) : Except String FileSys :=
  if pyCharIn 'w' mode then .ok (fsWrite fs file [])
  else if pyCharIn 'a' mode then .ok (if fsIsFile fs file then fs else fsWrite fs file [])
  else if fsIsFile fs file then .ok fs
  else .error "FileNotFoundError"

/-- The validation stage of `hash_open` (hashio.py lines 114-116): when
the policy is not "ignore" and both the file and its digest sibling
exist, run `validate_path` against the sibling's stored bytes; the result
carries the events executed so far (a raised mismatch aborts the call). -/
def hash_open_validate (digest : List Nat → List Nat) (hashName : String)
    (onError : OnError) (fs : FileSys) (file : String) :
    Except String (List HashEvent) :=
  let hp := hashPathOf file hashName
  if onError ≠ OnError.ignore ∧ fsIsFile fs file = true ∧ fsIsFile fs hp = true then
    match validate_path digest fs file ((fsGet fs hp).getD []) onError with
    | .error e => .error e
    | .ok warned => .ok (if warned then [.validateCheck, .warnEmitted] else [.validateCheck])
  else .ok []

/-- The post-validation stages of `hash_open` (hashio.py lines 119-126):
in write/append mode delete the digest sibling if present, then open the
file, then schedule re-hashing on close exactly when the mode is
write/append and `hash_on_write` is enabled. -/
def hash_open_after (hashOnWrite : Bool) (fs : FileSys) (file mode hp : String)
    (evs : List HashEvent) : HashOpenResult :=
  let st2 : List HashEvent × FileSys :=
    if modeHasWA mode = true ∧ fsIsFile fs hp = true then
      (evs ++ [.unlinkHash], fsUnlink fs hp)
    else (evs, fs)
  match openFS st2.2 file mode with
  | .error e => ⟨st2.1, st2.2, .error e⟩
  | .ok fs2 =>
      if modeHasWA mode = true ∧ hashOnWrite = true then
        ⟨st2.1 ++ [.openFile], fs2, .ok ⟨some (file, hp)⟩⟩
      else ⟨st2.1 ++ [.openFile], fs2, .ok ⟨none⟩⟩

/-- The `hash_open` wrapper produced by `wrap_open`, translated step by
step from hashio.py lines 100-126: compute the sibling digest path; when
the policy is not "ignore" and both files exist, validate (propagating a
raised mismatch); in write/append mode delete the digest file if present;
open the file; schedule re-hashing on close exactly in write/append mode
with `hash_on_write` enabled. -/
def hash_open (digest : List Nat → List Nat) (hashName : String) (onError : OnError)
    (hashOnWrite : Bool) (fs : FileSys) (file mode : String) : HashOpenResult :=
  match hash_open_validate digest hashName onError fs file with
  | .error e => ⟨[.validateCheck], fs, .error e⟩
  | .ok evs => hash_open_after hashOnWrite fs file mode (hashPathOf file hashName) evs

/-- `_HashFileWrapper.__exit__`: after closing the handle, when a path and
hash path were set, write the recomputed digest of the tracked file to the
hash path. -/
def hashWrapperExit (digest : List Nat → List Nat) (w : HashWrapper) (fs : FileSys) :
    Except String FileSys :=
  match w.hashTask with
  | none => .ok fs
  | some (p, hp) =>
      match path_digest digest fs p with
      | .error e => .error e
      | .ok d => .ok (fsWrite fs hp d)

theorem hash_open_validate_mismatch_raise (digest : List Nat → List Nat)
    (hashName : String) (fs : FileSys) (file : String) (stored content : List Nat)
    (hfile : fsGet fs file = some content)
    (hhash : fsGet fs (hashPathOf file hashName) = some stored)
    (hmm : stored ≠ digest content) :
    hash_open_validate digest hashName .raise fs file
      = .error (file ++ " has been modified since it was last generated") := by
  unfold hash_open_validate validate_path path_digest
  simp only [fsIsFile, hfile, hhash, Option.isSome_some, Option.getD_some]
  rw [if_pos (by simp), if_pos hmm]

theorem hash_open_validate_mismatch_warn (digest : List Nat → List Nat)
    (hashName : String) (fs : FileSys) (file : String) (stored content : List Nat)
    (hfile : fsGet fs file = some content)
    (hhash : fsGet fs (hashPathOf file hashName) = some stored)
    (hmm : stored ≠ digest content) :
    hash_open_validate digest hashName .warn fs file
      = .ok [.validateCheck, .warnEmitted] := by
  unfold hash_open_validate validate_path path_digest
  simp only [fsIsFile, hfile, hhash, Option.isSome_some, Option.getD_some]
  rw [if_pos (by simp), if_pos hmm]
  rfl

theorem hash_open_after_ok (hashOnWrite : Bool) (fs : FileSys)
    (file mode hp : String) (evs : List HashEvent)
    (hread : fsIsFile fs file = true) :
    isOkB (hash_open_after hashOnWrite fs file mode hp evs).result = true ∧
    ((hash_open_after hashOnWrite fs file mode hp evs).events
        = evs ++ [HashEvent.openFile] ∨
     (hash_open_after hashOnWrite fs file mode hp evs).events
        = evs ++ [HashEvent.unlinkHash, HashEvent.openFile]) := by
  unfold hash_open_after openFS
  by_cases hC : modeHasWA mode = true ∧ fsIsFile fs hp = true
  · rw [if_pos hC]
    have hwa := hC.1
    by_cases hw : pyCharIn 'w' mode = true
    · by_cases hh : modeHasWA mode = true ∧ hashOnWrite = true <;>
        simp [hw, hh, isOkB, apply_ite]
    · have ha : pyCharIn 'a' mode = true := by
        unfold modeHasWA at hwa
        simpa [hw] using hwa
      by_cases hf : fsIsFile (fsUnlink fs hp) file = true <;>
        by_cases hh : modeHasWA mode = true ∧ hashOnWrite = true <;>
          simp [hw, ha, hf, hh, isOkB, apply_ite]
  · rw [if_neg hC]
    by_cases hw : pyCharIn 'w' mode = true
    · by_cases hh : modeHasWA mode = true ∧ hashOnWrite = true <;>
        simp [hw, hh, isOkB, apply_ite]
    · by_cases ha : pyCharIn 'a' mode = true
      · by_cases hh : modeHasWA mode = true ∧ hashOnWrite = true <;>
          simp [hw, ha, hread, hh, isOkB, apply_ite]
      · simp [hw, ha, hread, isOkB, modeHasWA, apply_ite]

/-- C2: whenever the tracked file and its digest sibling both exist and
the stored digest disagrees with the recomputed digest, opening through
`hash_open` under the "raise" policy raises before any handle exists —
the caller's `builtins.open` never runs and the file system is untouched —
while under the "warn" policy the open succeeds and a warning is
emitted. -/
theorem c2_mismatch_policies (digest : List Nat → List Nat) (hashName : String)
    (hashOnWrite : Bool) (fs : FileSys) (file mode : String)
    (stored content : List Nat)
    (hfile : fsGet fs file = some content)
    (hhash : fsGet fs (hashPathOf file hashName) = some stored)
    (hmm : stored ≠ digest content) :
    (isOkB (hash_open digest hashName .raise hashOnWrite fs file mode).result = false ∧
     HashEvent.openFile ∉ (hash_open digest hashName .raise hashOnWrite fs file mode).events ∧
     (hash_open digest hashName .raise hashOnWrite fs file mode).fs = fs) ∧
    (isOkB (hash_open digest hashName .warn hashOnWrite fs file mode).result = true ∧
     HashEvent.warnEmitted ∈
       (hash_open digest hashName .warn hashOnWrite fs file mode).events) := by
  constructor
  · unfold hash_open
    rw [hash_open_validate_mismatch_raise digest hashName fs file stored content
      hfile hhash hmm]
    refine ⟨rfl, by simp, rfl⟩
  · unfold hash_open
    rw [hash_open_validate_mismatch_warn digest hashName fs file stored content
      hfile hhash hmm]
    have hread : fsIsFile fs file = true := by simp [fsIsFile, hfile]
    obtain ⟨hok, hev⟩ := hash_open_after_ok hashOnWrite fs file mode
      (hashPathOf file hashName) [.validateCheck, .warnEmitted] hread
    refine ⟨hok, ?_⟩
    rcases hev with h | h <;> rw [h] <;> simp

/-- Witness for C2 at a concrete state: file "f" holds byte 1, sibling
"f.sha256" stores byte 2, with the identity digest. -/
theorem c2_mismatch_policies_witness :
    (isOkB (hash_open (fun b => b) "sha256" .raise true
        [("f", [1]), ("f.sha256", [2])] "f" "r").result = false ∧
     HashEvent.openFile ∉ (hash_open (fun b => b) "sha256" .raise true
        [("f", [1]), ("f.sha256", [2])] "f" "r").events ∧
     (hash_open (fun b => b) "sha256" .raise true
        [("f", [1]), ("f.sha256", [2])] "f" "r").fs = [("f", [1]), ("f.sha256", [2])]) ∧
    (isOkB (hash_open (fun b => b) "sha256" .warn true
        [("f", [1]), ("f.sha256", [2])] "f" "r").result = true ∧
     HashEvent.warnEmitted ∈ (hash_open (fun b => b) "sha256" .warn true
        [("f", [1]), ("f.sha256", [2])] "f" "r").events) :=
  c2_mismatch_policies (fun b => b) "sha256" true [("f", [1]), ("f.sha256", [2])]
    "f" "r" [2] [1] (by decide) (by decide) (by decide)

/-- The condition under which the validation step of `hash_open` raises:
"raise" policy, both files present, and the stored digest differs from
the recomputed one. -/
def validationAborts (digest : List Nat → List Nat) (hashName : String)
    (onError : OnError) (fs : FileSys) (file : String) : Prop :=
  onError = .raise ∧ fsIsFile fs file = true ∧
    fsIsFile fs (hashPathOf file hashName) = true ∧
    (fsGet fs (hashPathOf file hashName)).getD [] ≠ digest ((fsGet fs file).getD [])

theorem hash_open_validate_ok_of_not_aborts (digest : List Nat → List Nat)
    (hashName : String) (onError : OnError) (fs : FileSys) (file : String)
    (hna : ¬ validationAborts digest hashName onError fs file) :
    ∃ evs, hash_open_validate digest hashName onError fs file = .ok evs ∧
      HashEvent.openFile ∉ evs ∧ HashEvent.unlinkHash ∉ evs := by
  unfold hash_open_validate
  by_cases hcond : onError ≠ OnError.ignore ∧ fsIsFile fs file = true ∧
      fsIsFile fs (hashPathOf file hashName) = true
  · rw [if_pos hcond]
    obtain ⟨hne, hf, hh⟩ := hcond
    obtain ⟨content, hfc⟩ := Option.isSome_iff_exists.mp hf
    simp only [validate_path, path_digest, hfc]
    by_cases hmm : (fsGet fs (hashPathOf file hashName)).getD [] ≠ digest content
    · cases onError with
      | ignore => exact absurd rfl hne
      | raise =>
          exact absurd ⟨rfl, hf, hh, by rw [hfc]; exact hmm⟩ hna
      | warn =>
          rw [if_pos hmm]
          exact ⟨[.validateCheck, .warnEmitted], rfl, by simp, by simp⟩
    · rw [if_neg hmm]
      exact ⟨[.validateCheck], rfl, by simp, by simp⟩
  · rw [if_neg hcond]
    exact ⟨[], rfl, by simp, by simp⟩

theorem hash_open_after_events_unlink (hashOnWrite : Bool) (fs : FileSys)
    (file mode hp : String) (evs : List HashEvent)
    (hC : modeHasWA mode = true ∧ fsIsFile fs hp = true) :
    (hash_open_after hashOnWrite fs file mode hp evs).events
      = evs ++ [HashEvent.unlinkHash, HashEvent.openFile] := by
  unfold hash_open_after openFS
  rw [if_pos hC]
  have hwa := hC.1
  by_cases hw : pyCharIn 'w' mode = true
  · by_cases hh : modeHasWA mode = true ∧ hashOnWrite = true <;> simp [hw, hh, apply_ite]
  · have ha : pyCharIn 'a' mode = true := by
      unfold modeHasWA at hwa
      simpa [hw] using hwa
    by_cases hf : fsIsFile (fsUnlink fs hp) file = true <;>
      by_cases hh : modeHasWA mode = true ∧ hashOnWrite = true <;>
        simp [hw, ha, hf, hh, apply_ite]

/-- C5 (amended): when `hash_open` opens in write or append mode with the
digest sibling present and the validation step does not raise (policy not
"raise", or digests agree, or one of the files is absent), the sibling is
deleted and the deletion precedes the real open; the original claim's
"regardless of the validation outcome" fails — see the counterexample —
because a raised mismatch aborts the call before the deletion. -/
theorem c5_unlink_before_open (digest : List Nat → List Nat) (hashName : String)
    (onError : OnError) (hashOnWrite : Bool) (fs : FileSys) (file mode : String)
    (hwa : modeHasWA mode = true)
    (hhp : fsIsFile fs (hashPathOf file hashName) = true)
    (hna : ¬ validationAborts digest hashName onError fs file) :
    ∃ pre, (hash_open digest hashName onError hashOnWrite fs file mode).events
        = pre ++ [HashEvent.unlinkHash, HashEvent.openFile] ∧
      HashEvent.unlinkHash ∉ pre ∧ HashEvent.openFile ∉ pre := by
  obtain ⟨evs, hval, hof, huh⟩ :=
    hash_open_validate_ok_of_not_aborts digest hashName onError fs file hna
  unfold hash_open
  rw [hval, hash_open_after_events_unlink hashOnWrite fs file mode _ evs ⟨hwa, hhp⟩]
  exact ⟨evs, rfl, huh, hof⟩

/-- C5 counterexample: with file "f" holding byte 1, sibling "f.sha256"
storing the mismatching byte 2, identity digest, "raise" policy and write
mode, the open aborts, no deletion happens, and the digest sibling is
still on disk afterwards — so the deletion does *not* happen regardless of
the validation outcome. -/
theorem c5_counterexample :
    isOkB (hash_open (fun b => b) "sha256" .raise true
        [("f", [1]), ("f.sha256", [2])] "f" "w").result = false ∧
    HashEvent.unlinkHash ∉ (hash_open (fun b => b) "sha256" .raise true
        [("f", [1]), ("f.sha256", [2])] "f" "w").events ∧
    fsIsFile (hash_open (fun b => b) "sha256" .raise true
        [("f", [1]), ("f.sha256", [2])] "f" "w").fs "f.sha256" = true := by decide

/-- Witness for C5 (amended): matching digests under "raise" in write
mode: the events are validation, then unlink, then open. -/
theorem c5_unlink_before_open_witness :
    ∃ pre, (hash_open (fun b => b) "sha256" .raise true
        [("f", [1]), ("f.sha256", [1])] "f" "w").events
        = pre ++ [HashEvent.unlinkHash, HashEvent.openFile] ∧
      HashEvent.unlinkHash ∉ pre ∧ HashEvent.openFile ∉ pre :=
  c5_unlink_before_open (fun b => b) "sha256" .raise true
    [("f", [1]), ("f.sha256", [1])] "f" "w" (by decide) (by decide)
    (by unfold validationAborts; decide)

/-- The bytes of `b"123456"` (ASCII codes). -/
def b123456 : List Nat := [49, 50, 51, 52, 53, 54]

theorem hash_open_write_wrapper (digest : List Nat → List Nat) (hashName : String)
    (fs : FileSys) (file : String) (w : HashWrapper)
    (hopen : (hash_open digest hashName .raise true fs file "w").result = .ok w) :
    w = ⟨some (file, hashPathOf file hashName)⟩ := by
  unfold hash_open at hopen
  cases hval : hash_open_validate digest hashName .raise fs file with
  | error e => rw [hval] at hopen; exact absurd hopen (by simp)
  | ok evs =>
      rw [hval] at hopen
      have hw : pyCharIn 'w' "w" = true := by decide
      have hmw : modeHasWA "w" = true := by decide
      by_cases hC : modeHasWA "w" = true ∧
          fsIsFile fs (hashPathOf file hashName) = true <;>
        simp [hash_open_after, openFS, hC, hw, hmw] at hopen <;>
        exact hopen.symm

theorem hash_open_read_valid (digest : List Nat → List Nat) (hashName : String)
    (fs : FileSys) (file : String) (content : List Nat)
    (hfile : fsGet fs file = some content)
    (hhash : fsGet fs (hashPathOf file hashName) = some (digest content)) :
    isOkB (hash_open digest hashName .raise true fs file "r").result = true := by
  have hna : ¬ validationAborts digest hashName .raise fs file := by
    unfold validationAborts
    rintro ⟨-, -, -, hne⟩
    rw [hfile, hhash] at hne
    simp at hne
  obtain ⟨evs, hval, -, -⟩ :=
    hash_open_validate_ok_of_not_aborts digest hashName .raise fs file hna
  unfold hash_open
  rw [hval]
  exact (hash_open_after_ok true fs file "r" _ evs (by simp [fsIsFile, hfile])).1

/-- C6: writing the bytes of `b"123456"` through the wrapped open in
write mode and closing the handle leaves the digest sibling holding the
digest of exactly those bytes (for any digest function, i.e. any
algorithm), and a subsequent wrapped open of the file for read with that
sibling present succeeds without raising. -/
theorem c6_digest_round_trip (digest : List Nat → List Nat) (hashName : String)
    (fs : FileSys) (file : String) (w : HashWrapper)
    (hopen : (hash_open digest hashName .raise true fs file "w").result = .ok w) :
    hashWrapperExit digest w
        (fsWrite (hash_open digest hashName .raise true fs file "w").fs file b123456)
      = .ok (fsWrite
          (fsWrite (hash_open digest hashName .raise true fs file "w").fs file b123456)
          (hashPathOf file hashName) (digest b123456)) ∧
    fsGet (fsWrite
        (fsWrite (hash_open digest hashName .raise true fs file "w").fs file b123456)
        (hashPathOf file hashName) (digest b123456))
      (hashPathOf file hashName) = some (digest b123456) ∧
    isOkB (hash_open digest hashName .raise true
        (fsWrite
          (fsWrite (hash_open digest hashName .raise true fs file "w").fs file b123456)
          (hashPathOf file hashName) (digest b123456))
        file "r").result = true := by
  have hws := hash_open_write_wrapper digest hashName fs file w hopen
  subst hws
  refine ⟨?_, ?_, ?_⟩
  · simp only [hashWrapperExit, path_digest, fsGet_write_self]
  · exact fsGet_write_self _ _ _
  · apply hash_open_read_valid digest hashName _ file b123456
    · rw [fsGet_write_ne _ _ _ _ (Ne.symm (hashPathOf_ne file hashName))]
      exact fsGet_write_self _ _ _
    · exact fsGet_write_self _ _ _

/-- Witness for C6: the round trip on an empty file system with the
identity digest, file "f". -/
theorem c6_digest_round_trip_witness :
    hashWrapperExit (fun b => b) ⟨some ("f", hashPathOf "f" "sha256")⟩
        (fsWrite (hash_open (fun b => b) "sha256" .raise true [] "f" "w").fs "f" b123456)
      = .ok (fsWrite
          (fsWrite (hash_open (fun b => b) "sha256" .raise true [] "f" "w").fs "f" b123456)
          (hashPathOf "f" "sha256") ((fun b => b) b123456)) ∧
    fsGet (fsWrite
        (fsWrite (hash_open (fun b => b) "sha256" .raise true [] "f" "w").fs "f" b123456)
        (hashPathOf "f" "sha256") ((fun b => b) b123456))
      (hashPathOf "f" "sha256") = some ((fun b => b) b123456) ∧
    isOkB (hash_open (fun b => b) "sha256" .raise true
        (fsWrite
          (fsWrite (hash_open (fun b => b) "sha256" .raise true [] "f" "w").fs "f" b123456)
          (hashPathOf "f" "sha256") ((fun b => b) b123456))
        "f" "r").result = true :=
  c6_digest_round_trip (fun b => b) "sha256" [] "f"
    ⟨some ("f", hashPathOf "f" "sha256")⟩ (by rfl)

/-- C1: the interval enumeration is broken in the same-year case: at
start = end = (year 1, SPRING) the code yields five periods — all of year
1 from SPRING on (loop 1), then SPRING of year 1 again (loop 3) — instead
of the single period required by a strictly ascending, duplicate-free
inclusive enumeration (`iterate_between(x, x)` must yield exactly one
element); in particular the output is not sorted under `<`. -/
theorem c1_same_year_double_emission :
    iter_between ⟨1, .SPRING⟩ ⟨1, .SPRING⟩ =
      [⟨1, .SPRING⟩, ⟨1, .SUMMER⟩, ⟨1, .AUTUMN⟩, ⟨1, .WINTER⟩, ⟨1, .SPRING⟩] ∧
    iter_between ⟨1, .SPRING⟩ ⟨1, .SPRING⟩ ≠ [⟨1, .SPRING⟩] ∧
    ¬ (iter_between ⟨1, .SPRING⟩ ⟨1, .SPRING⟩).Pairwise
        (fun a b => ysLt a b = true) := by decide

/-- C8: the concrete scenario: from (year 2, autumn) to (year 4, summer),
`iter_between` yields exactly the eight periods (2, autumn), (2, winter),
(3, spring), (3, summer), (3, autumn), (3, winter), (4, spring),
(4, summer), in that order. -/
theorem c8_concrete_enumeration :
    iter_between ⟨2, .AUTUMN⟩ ⟨4, .SUMMER⟩ =
      [⟨2, .AUTUMN⟩, ⟨2, .WINTER⟩, ⟨3, .SPRING⟩, ⟨3, .SUMMER⟩, ⟨3, .AUTUMN⟩,
       ⟨3, .WINTER⟩, ⟨4, .SPRING⟩, ⟨4, .SUMMER⟩] := by decide

/-- C3: for a path with a suffix the computed sibling digest path has a
doubled dot: "data.csv" maps to "data..csv.sha256" and not to the claimed
"data.csv.sha256", because line 111 prepends "." to `path.suffix`, which
already starts with a dot; the suffix-less case agrees with the claim
("data" maps to "data.sha256"). -/
theorem c3_hash_path_double_dot :
    hashPathOf "data.csv" "sha256" = "data..csv.sha256" ∧
    hashPathOf "data.csv" "sha256" ≠ "data.csv.sha256" ∧
    hashPathOf "data" "sha256" = "data.sha256" := by decide
